import Mathlib

/-!
# Verification of the model-settings-manager core logic

A shallow embedding, in Lean 4, of the data model and operations of the
`cedar-team/model-settings-manager` repository: the usage classifier and
its SQL predicate, the join producing the rows served by the backend,
the Snowflake query boundary (event model), the team-ownership resolver,
the HTTP response envelopes, the front-end cache and the CSV codec.

Definitions are translated from the TypeScript source (`server/index.ts`,
`src/services/cache.ts` and the CSV utility module); the ownership
resolver, whose generator script is not part of the source tree (only its
disabled call site is), is modelled from the specification as noted on
each of its definitions.
-/

set_option maxHeartbeats 1000000

namespace MSM

/-- JavaScript `x || d` for strings: the empty string is falsy, every other
string is truthy. -/
def jsOr (s d : String) : String := if s = "" then d else s

/-- First-match association-list lookup, modelling a JS object / `Map` read
(`obj[key]`, yielding `none` for a missing key). -/
def lookupAssoc (l : List (String × String)) (k : String) : Option String :=
  (l.find? (fun e => e.1 = k)).map (fun e => e.2)

/-! ## Rows of the model-settings join (`server/index.ts`) -/

/-- A row of an `executeSnowflakeQuery` result after key normalisation:
`{ name, description, created_date }` (interface `ModelSettingBasic`). -/
structure ModelSettingBasic where
  name : String
  description : String
  created_date : String
deriving DecidableEq, Repr

/-- A joined row served to the UI (interface `ModelSetting`). -/
structure ModelSetting where
  name : String
  description : String
  created_date : String
  inUse : Bool
  team : String
deriving DecidableEq, Repr

/-- The pure joining step of `getAllModelSettings` (`server/index.ts`
lines 335–347): build the set of unused names, the set of used names
(all names minus unused), and map every all-settings row to a joined
`ModelSetting` row. `Set.has` is membership in the underlying list of
names; `teamMapping[name] || 'Unknown'` is `jsOr` over the lookup. -/
def combineSettings (allSettings unusedSettings : List ModelSettingBasic)
    (teamMapping : List (String × String)) : List ModelSetting :=
  let unusedNames := unusedSettings.map (fun s => s.name)
  let usedNames := (allSettings.map (fun s => s.name)).filter
    (fun n => !(unusedNames.contains n))
  allSettings.map (fun s =>
    { name := jsOr s.name ""
      description := jsOr s.description ""
      created_date := jsOr s.created_date ""
      inUse := usedNames.contains s.name && !(unusedNames.contains s.name)
      team := jsOr ((lookupAssoc teamMapping s.name).getD "") "Unknown" })

/-- `getAllModelSettings` as a function of the two query outcomes
(`Promise.all` rejects as soon as either promise rejects; the `catch`
block rethrows, so a failure propagates). -/
def getAllModelSettings (allRes unusedRes : Except String (List ModelSettingBasic))
    (teamMapping : List (String × String)) : Except String (List ModelSetting) :=
  match allRes, unusedRes with
  | .ok a, .ok u => .ok (combineSettings a u teamMapping)
  | .error e, _ => .error e
  | _, .error e => .error e

/-- The uniform response envelope (interface `SnowflakeResponse`). -/
structure Envelope where
  success : Bool
  data : List ModelSetting
  count : Nat
  error : Option String
deriving DecidableEq, Repr

/-- The `GET /api/model-settings/all` handler as a function of the
`getAllModelSettings` outcome: HTTP status plus response body
(`server/index.ts` lines 358–382). -/
def modelSettingsAllEndpoint (r : Except String (List ModelSetting)) : Nat × Envelope :=
  match r with
  | .ok s => (200, { success := true, data := s, count := s.length, error := none })
  | .error e => (500, { success := false, data := [], count := 0, error := some e })

/-! ## Team-mapping snapshot loading (`loadTeamMapping`) -/

/-- The parsed snapshot file: its optional `mapping` field
(`teamMappingData.mapping || {}`). -/
structure TeamMappingFile where
  mapping : Option (List (String × String))
deriving Repr

/-- `loadTeamMapping` (`server/index.ts` lines 90–101) as a function of the
read-and-parse outcome and the current in-memory mapping: on success the
mapping is replaced (missing `mapping` field defaults to empty) and `true`
is returned; on any exception the mapping is left unchanged and `false`
is returned. -/
def loadTeamMapping (readParse : Except String TeamMappingFile)
    (current : List (String × String)) : Bool × List (String × String) :=
  match readParse with
  | .ok d => (true, d.mapping.getD [])
  | .error _ => (false, current)

/-! ## Key normalisation at the query boundary -/

/-- Key normalisation in `executeSnowflakeQuery`'s close handler
(`server/index.ts` lines 300–305): each parsed JSON row (an object,
modelled as an association list of string fields) becomes
`{ name: row.NAME || '', description: row.DESCRIPTION || '',
created_date: row.CREATED_DATE || '' }`. A property access on a missing
key reads `undefined`, which `|| ''` turns into the empty string, exactly
like a present-but-empty value; the access uses the literal uppercase key. -/
def normalizeSnowflakeRow (row : List (String × String)) : ModelSettingBasic :=
  { name := jsOr ((lookupAssoc row "NAME").getD "") ""
    description := jsOr ((lookupAssoc row "DESCRIPTION").getD "") ""
    created_date := jsOr ((lookupAssoc row "CREATED_DATE").getD "") "" }

/-! ## Front-end cache (`src/services/cache.ts`) -/

/-- The 5-minute TTL: `5 * 60 * 1000` milliseconds. -/
def cacheTTL : Nat := 5 * 60 * 1000

/-- `CacheService`'s backing `Map`: key, stored data, write timestamp. -/
abbrev CacheState (α : Type) : Type := List (String × α × Nat)

/-- JS `Map.prototype.set`: update the entry in place when the key exists,
otherwise append a fresh entry. -/
def mapSet {α : Type} (s : List (String × α)) (k : String) (v : α) :
    List (String × α) :=
  if s.any (fun e => e.1 = k) then s.map (fun e => if e.1 = k then (k, v) else e)
  else s ++ [(k, v)]

/-- JS `Map.prototype.delete`. -/
def mapDelete {α : Type} (s : List (String × α)) (k : String) : List (String × α) :=
  s.filter (fun e => !(decide (e.1 = k)))

/-- `cacheService.set(key, data)`: store the data stamped with `Date.now()`. -/
def cacheSet {α : Type} (s : CacheState α) (k : String) (v : α) (now : Nat) :
    CacheState α :=
  mapSet s k (v, now)

/-- `cacheService.get(key)` at time `now`: `null` for a missing key; for a
present entry older than the TTL, delete it and return `null`; otherwise
return the stored data. The resulting map state is returned alongside. -/
def cacheGet {α : Type} (s : CacheState α) (k : String) (now : Nat) :
    Option α × CacheState α :=
  match s.find? (fun e => e.1 = k) with
  | none => (none, s)
  | some e => if now - e.2.2 > cacheTTL then (none, mapDelete s k) else (some e.2.1, s)

/-- `cacheService.clear(key)`. -/
def cacheClear {α : Type} (s : CacheState α) (k : String) : CacheState α :=
  mapDelete s k

/-- `cacheService.clearAll()`. -/
def cacheClearAll {α : Type} (_ : CacheState α) : CacheState α := []

/-- A state-changing call on the cache service. -/
inductive CacheOp (α : Type) where
  | setOp (k : String) (v : α) (now : Nat)
  | getOp (k : String) (now : Nat)
  | clearOp (k : String)
  | clearAllOp

/-- Run one cache call against the state. -/
def applyCacheOp {α : Type} (s : CacheState α) : CacheOp α → CacheState α
  | .setOp k v now => cacheSet s k v now
  | .getOp k now => (cacheGet s k now).2
  | .clearOp k => cacheClear s k
  | .clearAllOp => cacheClearAll s

/-- Whether a cache call reads or modifies the entry of key `k`. -/
def touches {α : Type} (op : CacheOp α) (k : String) : Bool :=
  match op with
  | .setOp k' _ _ => k' = k
  | .getOp k' _ => k' = k
  | .clearOp k' => k' = k
  | .clearAllOp => true

/-! ## The Snowflake query boundary (`executeSnowflakeQuery`) -/

/-- The fixed subprocess timeout: 60 seconds (`60000` ms). -/
def snowflakeTimeoutMs : Nat := 60000

/-- The scan of the close handler locating the JSON array in the CLI output:
walk the lines keeping the index of the latest line whose trimmed form
starts with `[` (`jsonStart`), and stop at the first line whose trimmed
form ends with `]` once a start has been seen (`jsonEnd`). -/
def scanJsonBounds : List String → Nat → Option Nat → Option (Nat × Nat)
  | [], _, _ => none
  | l :: rest, i, start =>
    let start' := if l.trim.startsWith "[" then some i else start
    if l.trim.endsWith "]" && start'.isSome then
      match start' with
      | some s => some (s, i)
      | none => none
    else scanJsonBounds rest (i + 1) start'

/-- `lines.slice(jsonStart, jsonEnd + 1).join('\n')` over the split stdout,
or `none` when no JSON array is found. -/
def extractJsonText (stdout : String) : Option String :=
  let lines := stdout.splitOn "\n"
  match scanJsonBounds lines 0 none with
  | none => none
  | some (s, e) => some (String.intercalate "\n" ((lines.drop s).take (e + 1 - s)))

/-- The close handler of `executeSnowflakeQuery` (`server/index.ts`
lines 263–312): a non-zero (or null) exit code rejects with the stderr
text; otherwise the JSON array is located and parsed and each row's keys
are normalized. `JSON.parse` is the JS runtime's parser, taken here as a
parameter returning the parsed rows or a thrown error message. -/
def handleClose (jsonParse : String → Except String (List (List (String × String))))
    (code : Option Int) (stdout stderr : String) :
    Except String (List ModelSettingBasic) :=
  if code ≠ some 0 then .error ("Snowflake query failed: " ++ stderr)
  else
    match extractJsonText stdout with
    | none => .error ("Failed to parse Snowflake JSON output: "
        ++ "No valid JSON array found in Snowflake output")
    | some txt =>
      match jsonParse txt with
      | .error e => .error ("Failed to parse Snowflake JSON output: " ++ e)
      | .ok rows => .ok (rows.map normalizeSnowflakeRow)

/-- The first-to-fire process event: the child closed, or errored. -/
inductive ProcEvent where
  | close (code : Option Int) (stdout stderr : String)
  | procError (msg : String)

/-- How the promise settles on a given process event. -/
def settleEvent (jsonParse : String → Except String (List (List (String × String))))
    : ProcEvent → Except String (List ModelSettingBasic)
  | .close code stdout stderr => handleClose jsonParse code stdout stderr
  | .procError msg => .error ("Error executing Snowflake query: " ++ msg)

/-- The settled promise of one query invocation: whether the child was
killed, and the value the caller receives. -/
structure QueryOutcome where
  killed : Bool
  result : Except String (List ModelSettingBasic)
deriving Repr

/-- `executeSnowflakeQuery` as a function of the first process event and
its arrival time in ms (`none`: the child never closes or errors). If no
event arrives before the 60 s timer fires, the timer kills the child with
SIGTERM and rejects the promise with the timeout error; otherwise the
handler clears the timer and settles the promise from the event. -/
def executeSnowflakeQueryModel
    (jsonParse : String → Except String (List (List (String × String))))
    (firstEvent : Option (Nat × ProcEvent)) : QueryOutcome :=
  match firstEvent with
  | some (t, e) =>
    if t < snowflakeTimeoutMs then { killed := false, result := settleEvent jsonParse e }
    else { killed := true, result := .error "Snowflake query timed out" }
  | none => { killed := true, result := .error "Snowflake query timed out" }

/-! ## HTTP response shapes (`server/index.ts` routes) -/

/-- A JSON value, for modelling response bodies. -/
inductive JVal where
  | jstr (s : String)
  | jnum (n : Int)
  | jbool (b : Bool)
  | jarr (xs : List JVal)
  | jobj (fields : List (String × JVal))
  | jnull

/-- The JSON object sent for one joined row. -/
def jsonOfModelSetting (m : ModelSetting) : JVal :=
  .jobj [("name", .jstr m.name), ("description", .jstr m.description),
    ("created_date", .jstr m.created_date), ("inUse", .jbool m.inUse),
    ("team", .jstr m.team)]

/-- Body of `GET /api/model-settings/all`, on success and on failure. -/
def modelSettingsAllResponse (r : Except String (List ModelSetting)) :
    List (String × JVal) :=
  match r with
  | .ok s => [("success", .jbool true), ("data", .jarr (s.map jsonOfModelSetting)),
      ("count", .jnum s.length)]
  | .error e => [("success", .jbool false), ("data", .jarr []),
      ("count", .jnum 0), ("error", .jstr e)]

/-- Body of `POST /api/model-settings/refresh` (identical handler body). -/
def modelSettingsRefreshResponse (r : Except String (List ModelSetting)) :
    List (String × JVal) :=
  match r with
  | .ok s => [("success", .jbool true), ("data", .jarr (s.map jsonOfModelSetting)),
      ("count", .jnum s.length)]
  | .error e => [("success", .jbool false), ("data", .jarr []),
      ("count", .jnum 0), ("error", .jstr e)]

/-- Body of `POST /api/team-mapping/refresh`: `{success, message,
settingsCount, summary}` when the reload succeeded, `{success, error}`
otherwise. -/
def teamMappingRefreshResponse (loaded : Bool) (settingsCount : Nat) :
    List (String × JVal) :=
  if loaded then
    [("success", .jbool true),
     ("message", .jstr "Team mapping refreshed successfully"),
     ("settingsCount", .jnum settingsCount),
     ("summary", .jstr "Team mapping refresh temporarily disabled")]
  else
    [("success", .jbool false),
     ("error", .jstr "Failed to reload team mapping after generation")]

/-- Body of `GET /api/model-settings/:settingName/details`: the success
shape adds `settingName`; the failure shape has no `data` or `count`. -/
def settingDetailsResponse (settingName : String) (r : Except String (List JVal)) :
    List (String × JVal) :=
  match r with
  | .ok details => [("success", .jbool true), ("settingName", .jstr settingName),
      ("data", .jarr details), ("count", .jnum details.length)]
  | .error e => [("success", .jbool false),
      ("error", .jstr "Failed to get model setting details"), ("details", .jstr e)]

/-- Body of `GET /health`: `{status: 'ok', timestamp}`. -/
def healthResponse (timestamp : String) : List (String × JVal) :=
  [("status", .jstr "ok"), ("timestamp", .jstr timestamp)]

/-- Whether a response body is the uniform envelope
`{success, data, count, error?}`. -/
def isUniformEnvelope (resp : List (String × JVal)) : Bool :=
  let keys := resp.map (fun e => e.1)
  keys.contains "success" && keys.contains "data" && keys.contains "count"
    && keys.all (fun k => k = "success" || k = "data" || k = "count" || k = "error")

/-! ## JS string primitives

The JS string methods used by the code, implemented over the character
list of a `String` so every definition evaluates by kernel reduction. -/

/-- JS `s.startsWith(pre)`. -/
def jsStartsWith (s pre : String) : Bool := pre.data.isPrefixOf s.data

/-- JS `s.endsWith(suf)`. -/
def jsEndsWith (s suf : String) : Bool := suf.data.isSuffixOf s.data

/-- JS `s.slice(0, -n)` for a string known to be at least `n` long:
drop the last `n` characters. -/
def jsDropRight (s : String) (n : Nat) : String :=
  ⟨s.data.take (s.data.length - n)⟩

/-- Whether `sub` occurs as a contiguous run inside `l`. -/
def listIsInfixOf : List Char → List Char → Bool
  | sub, [] => sub.isPrefixOf []
  | sub, c :: rest => sub.isPrefixOf (c :: rest) || listIsInfixOf sub rest

/-- JS `s.includes(sub)`: substring containment. -/
def jsIncludes (s sub : String) : Bool := listIsInfixOf sub.data s.data

/-- JS `s.replace(pat, repl)` for a plain-string pattern: replace only the
first occurrence of `pat` (the whole string is unchanged when `pat` does
not occur). -/
def jsReplaceFirst : List Char → List Char → List Char → List Char
  | [], pat, repl => if pat.isPrefixOf [] then repl else []
  | c :: rest, pat, repl =>
    if pat.isPrefixOf (c :: rest) then repl ++ (c :: rest).drop pat.length
    else c :: jsReplaceFirst rest pat repl

/-- Node `path.dirname` (posix): ignore trailing separators, drop the last
path component, and return `"."` when no separator remains (`"/"` for a
rooted path, and the `"//"` quirk for a root-adjacent separator). -/
def jsDirname (p : String) : String :=
  match p.data with
  | [] => "."
  | c0 :: rest =>
    let r1 := rest.reverse.dropWhile (fun c => c = '/')
    let r2 := r1.dropWhile (fun c => !(decide (c = '/')))
    if r2.length = 0 then (if c0 = '/' then "/" else ".")
    else if c0 = '/' ∧ r2.length = 1 then "//"
    else ⟨(c0 :: rest).take r2.length⟩

/-! ## The Ownership Resolver

Translated from `generateTeamMappingFromYaml` in
`generate-team-mapping-from-yaml.js` (whose full source is embedded in
the repository README document set; `server/index.ts` carries its
disabled call site in `app.post('/api/team-mapping/refresh')`). -/

/-- One `files` entry of a system in `CODE_OWNERSHIP.yml`: its `path`
field (the code skips falsy paths, modelled as the empty string). -/
structure FileEntry where
  path : String

/-- One `systems` entry of a team: its `files` list (an absent list is
the empty list). -/
structure SystemEntry where
  files : List FileEntry

/-- One `teams` entry of the ownership YAML: team name and systems. -/
structure TeamEntry where
  name : String
  systems : List SystemEntry

/-- `pathToTeam`: iterate every team, system and file in order; for every
truthy `file.path` insert path→team into the `Map` (in-place overwrite for
a duplicate key, append otherwise); a path ending in `/` is additionally
inserted with the trailing separator sliced off (`slice(0, -1)`). -/
def buildPathToTeam (teams : List TeamEntry) : List (String × String) :=
  teams.foldl (fun idx team =>
    team.systems.foldl (fun idx2 system =>
      system.files.foldl (fun idx3 file =>
        if file.path = "" then idx3
        else
          let idx4 := mapSet idx3 file.path team.name
          if jsEndsWith file.path "/" then
            mapSet idx4 (jsDropRight file.path 1) team.name
          else idx4) idx2) idx) []

/-- `directoryToTeam`: for every `pathToTeam` entry whose path *contains*
`/model_settings/__init__.py` (an `includes` test, not a suffix test),
record the path with its first `/__init__.py` occurrence removed
(`replace('/__init__.py', '')`) → team. -/
def buildDirectoryToTeam (idx : List (String × String)) :
    List (String × String) :=
  idx.foldl (fun d e =>
    if jsIncludes e.1 "/model_settings/__init__.py" then
      mapSet d ⟨jsReplaceFirst e.1.data "/__init__.py".data []⟩ e.2
    else d) []

/-- The directory-prefix test of the fallback scan:
`relativePath.startsWith(ownedPath + '/') || (ownedPath.endsWith('/') &&
relativePath.startsWith(ownedPath))`. -/
def isDirPrefixMatch (pat relPath : String) : Bool :=
  jsStartsWith relPath (pat ++ "/") || (jsEndsWith pat "/" && jsStartsWith relPath pat)

/-- The per-file resolution of `generateTeamMappingFromYaml`: exact
`pathToTeam` lookup of the relative path; otherwise the first
`pathToTeam` entry (in the Map's insertion order) that is a
directory-prefix of it; otherwise a `directoryToTeam` lookup of
`path.dirname(relativePath)`; otherwise `'Unknown'`. -/
def resolveTeam (idx dirIdx : List (String × String)) (relPath : String) : String :=
  match lookupAssoc idx relPath with
  | some t => t
  | none =>
    match idx.find? (fun e => isDirPrefixMatch e.1 relPath) with
    | some e => e.2
    | none =>
      match lookupAssoc dirIdx (jsDirname relPath) with
      | some t => t
      | none => "Unknown"

/-- Resolve a candidate file's relative path to its owning team, with
both maps built from the parsed ownership YAML. -/
def resolveOwner (teams : List TeamEntry) (relPath : String) : String :=
  resolveTeam (buildPathToTeam teams)
    (buildDirectoryToTeam (buildPathToTeam teams)) relPath

/-! ## The unused-settings query (`UNUSED_MODEL_SETTINGS_QUERY`)

A relational model of the SQL text at `server/index.ts` lines 48–64.
`django_model_settings_modelsetting` rows carry a non-null base value and
an optional conditional schema; `django_model_settings_modelsettingvalue`
rows (partition-level overrides) carry a non-null value and a percent.
The `ORDER BY ms.name` clause only orders the output and is omitted: the
claims are about membership. -/

/-- A `django_model_settings_modelsetting` row. `pod` is the source's
`pod_prefix` column. -/
structure MsRow where
  id : Nat
  name : String
  pod : String
  value : String
  conditional_schema : Option String
deriving DecidableEq, Repr

/-- A `django_model_settings_modelsettingvalue` row. `pod` is the source's
`pod_prefix` column. -/
structure MsvRow where
  model_setting_id : Nat
  pod : String
  value : String
  percent : Int
deriving DecidableEq, Repr

/-- The join condition:
`ms.id = msv.model_setting_id AND ms.pod_prefix = msv.pod_prefix`. -/
def msvMatches (ms : MsRow) (msv : MsvRow) : Bool :=
  ms.id = msv.model_setting_id && ms.pod = msv.pod

/-- One `ms` row's contribution to the LEFT JOIN: its matching `msv` rows,
or a single row with NULL `msv` columns when none match. -/
def leftJoinRow (msvs : List MsvRow) (ms : MsRow) : List (MsRow × Option MsvRow) :=
  if msvs.filter (fun v => msvMatches ms v) = [] then [(ms, none)]
  else (msvs.filter (fun v => msvMatches ms v)).map (fun v => (ms, some v))

/-- `FROM ms LEFT JOIN msv ON …`. -/
def leftJoin (mss : List MsRow) (msvs : List MsvRow) : List (MsRow × Option MsvRow) :=
  mss.flatMap (leftJoinRow msvs)

/-- `WHERE ms.conditional_schema IS NULL` over the join result. -/
def wherePhase (mss : List MsRow) (msvs : List MsvRow) : List (MsRow × Option MsvRow) :=
  (leftJoin mss msvs).filter (fun r => r.1.conditional_schema = none)

/-- The group of join rows for one `ms.name` (after the WHERE clause). -/
def groupRows (mss : List MsRow) (msvs : List MsvRow) (n : String) :
    List (MsRow × Option MsvRow) :=
  (wherePhase mss msvs).filter (fun r => r.1.name = n)

/-- The HAVING clause on one name's group:
`COUNT(DISTINCT ms.value) = 1` (SQL `COUNT(DISTINCT …)` over the non-null
base values), `COUNT(CASE WHEN msv.value = ms.value THEN 1 END) =
COUNT(msv.value)` (every existing override value matches the joined base
value; NULL `msv` columns from unmatched rows count in neither side), and
`COUNT(CASE WHEN msv.value IS NOT NULL AND msv.percent <> 100 THEN 1 END)
= 0`. -/
def havingPred (mss : List MsRow) (msvs : List MsvRow) (n : String) : Bool :=
  (((groupRows mss msvs n).map (fun r => r.1.value)).dedup.length = 1)
  && ((groupRows mss msvs n).countP (fun r =>
        match r.2 with
        | some v => v.value = r.1.value
        | none => false)
      = (groupRows mss msvs n).countP (fun r => r.2.isSome))
  && ((groupRows mss msvs n).countP (fun r =>
        match r.2 with
        | some v => decide (v.percent ≠ 100)
        | none => false) = 0)

/-- `UNUSED_MODEL_SETTINGS_QUERY`: the names (GROUP BY keys of the
WHERE-filtered join) whose group passes the HAVING clause. -/
def unusedModelSettingsQuery (mss : List MsRow) (msvs : List MsvRow) : List String :=
  (((wherePhase mss msvs).map (fun r => r.1.name)).dedup).filter (havingPred mss msvs)

/-- The claim's classification rule, as worded: the name's setting rows
have no conditional activation schema attached, exactly one distinct base
value exists for the name across all partitions, every partition-level
override value that exists equals that one base value, and no override
has an activation percentage different from 100. -/
def claimUnused (mss : List MsRow) (msvs : List MsvRow) (n : String) : Bool :=
  (mss.filter (fun r => r.name = n)).all (fun r => r.conditional_schema = none)
  && (((mss.filter (fun r => r.name = n)).map (fun r => r.value)).dedup.length = 1)
  && (msvs.filter (fun v =>
        (mss.filter (fun r => r.name = n)).any (fun r => msvMatches r v))).all
      (fun v => (mss.filter (fun r => r.name = n)).all (fun r => v.value = r.value))
  && (msvs.filter (fun v =>
        (mss.filter (fun r => r.name = n)).any (fun r => msvMatches r v))).all
      (fun v => v.percent = 100)

/-- The amended classification rule: all conditions are evaluated over
only the name's setting rows **without** a conditional schema (at least
one such row must exist, which the one-distinct-value condition forces):
exactly one distinct base value among those rows, and every override
attached to such a row has that row's base value and percent 100. -/
def claimUnusedAmended (mss : List MsRow) (msvs : List MsvRow) (n : String) : Bool :=
  (((mss.filter (fun r => r.name = n && r.conditional_schema = none)).map
      (fun r => r.value)).dedup.length = 1)
  && (mss.filter (fun r => r.name = n && r.conditional_schema = none)).all
      (fun r => (msvs.filter (fun v => msvMatches r v)).all
        (fun v => v.value = r.value && v.percent = 100))

/-! ## CSV escaping and parsing (the CSV utility module)

The front-end CSV codec (`escapeCSVField`, `parseCSVLine`,
`Array.prototype.join(',')`), embedded over the character list of a
`String`. -/

/-- The characters JS `String.prototype.trim` removes: the ECMAScript
WhiteSpace set (TAB, VT, FF, SP, NBSP, ZWNBSP and the Unicode
space-separator category) together with the LineTerminator set
(LF, CR, LS, PS). -/
def isJsWs (c : Char) : Bool :=
  c = ' ' || c = '\t' || c = '\n' || c = '\x0b' || c = '\x0c' || c = '\r'
    || c = '\u00A0' || c = '\u1680' || ('\u2000' ≤ c && c ≤ '\u200A')
    || c = '\u2028' || c = '\u2029' || c = '\u202F' || c = '\u205F'
    || c = '\u3000' || c = '\uFEFF'

/-- JS `s.trim()` over the character list. -/
def trimChars (l : List Char) : List Char :=
  ((l.dropWhile isJsWs).reverse.dropWhile isJsWs).reverse

/-- `escapeCSVField`'s quoting test: the field contains a comma, quote,
LF or CR, or starts or ends with a space. -/
def needsQuoting (l : List Char) : Bool :=
  l.contains ',' || l.contains '"' || l.contains '\n' || l.contains '\r'
    || (l.head? = some ' ') || (l.getLast? = some ' ')

/-- `value.replace(/"/g, '""')`: double every quote. -/
def doubleQuotes (l : List Char) : List Char :=
  l.flatMap (fun c => if c = '"' then ['"', '"'] else [c])

/-- `escapeCSVField` on the character list: wrap in quotes (doubling inner
quotes) when quoting is needed, else return the field unchanged. -/
def escapeChars (l : List Char) : List Char :=
  if needsQuoting l then '"' :: (doubleQuotes l ++ ['"']) else l

/-- `escapeCSVField` for a string field (the null/undefined-to-`''`
coercion of non-string values is outside this model: fields are strings). -/
def escapeCSVField (s : String) : String := ⟨escapeChars s.data⟩

/-- The character scan of `parseCSVLine`: on `"` toggle the quote state,
except that `""` inside quotes appends one literal quote and skips the
second; on `,` outside quotes push the trimmed current field; any other
character is appended to the current field; at the end push the trimmed
last field. -/
def parseLoop : List Char → List (List Char) → List Char → Bool → List (List Char)
  | [], res, current, _ => res ++ [trimChars current]
  | c :: rest, res, current, inQuotes =>
    if c = '"' then
      if inQuotes then
        match rest with
        | c2 :: rest2 =>
          if c2 = '"' then parseLoop rest2 res (current ++ ['"']) true
          else parseLoop (c2 :: rest2) res current false
        | [] => res ++ [trimChars current]
      else parseLoop rest res current true
    else if c = ',' ∧ inQuotes = false then
      parseLoop rest (res ++ [trimChars current]) [] inQuotes
    else parseLoop rest res (current ++ [c]) inQuotes

/-- `parseCSVLine(line)`: scan the line and return the parsed fields. -/
def parseCSVLine (line : String) : List String :=
  (parseLoop line.data [] [] false).map (fun l => ⟨l⟩)

/-- JS `Array.prototype.join(',')` on character lists. -/
def joinWithComma : List (List Char) → List Char
  | [] => []
  | [f] => f
  | f :: g :: t => f ++ ',' :: joinWithComma (g :: t)

/-- `fields.join(',')` for string fields. -/
def joinComma (fields : List String) : String :=
  ⟨joinWithComma (fields.map (fun f => f.data))⟩

end MSM

namespace MSM

/-! ## Theorems -/

theorem jsOr_empty (s : String) : jsOr s "" = s := by
  unfold jsOr; split <;> simp_all

theorem contains_eq_mem (l : List String) (a : String) :
    l.contains a = decide (a ∈ l) := by
  simp [List.contains]

theorem contains_filter_and (l : List String) (p : String → Bool) (a : String) :
    ((l.filter p).contains a) = (l.contains a && p a) := by
  by_cases h : a ∈ l.filter p
  · have h' := List.mem_filter.mp h
    simp [contains_eq_mem, h, h'.1, h'.2]
  · by_cases hp : p a
    · have hl' : a ∉ l := fun hl => h (List.mem_filter.mpr ⟨hl, hp⟩)
      simp [contains_eq_mem, h, hl']
    · simp [contains_eq_mem, h, hp]

/-- **C1.** `getAllModelSettings` (its pure joining step `combineSettings`)
returns exactly one joined row per element of the all-settings list, in that
list's order (the sequence of output names equals the sequence of input
names, so a name only in the unused list contributes no row), and every
output row's `inUse` flag equals: the row's name occurs among the
all-settings names AND does not occur among the unused names. -/
theorem combineSettings_join_semantics (A U : List ModelSettingBasic)
    (tm : List (String × String)) :
    ((combineSettings A U tm).map (fun r => r.name) = A.map (fun s => s.name)) ∧
    (∀ r ∈ combineSettings A U tm,
      r.inUse = ((A.map (fun s => s.name)).contains r.name
        && !((U.map (fun s => s.name)).contains r.name))) := by
  constructor
  · simp only [combineSettings, List.map_map]
    apply List.map_congr_left
    intro s _
    simp [jsOr_empty]
  · intro r hr
    simp only [combineSettings, List.mem_map] at hr
    obtain ⟨s, hs, rfl⟩ := hr
    simp only [jsOr_empty]
    rw [contains_filter_and]
    cases h : (U.map (fun s => s.name)).contains s.name <;> simp [h]

/-- Witness for C1 at a concrete input: all-settings rows `a`, `b`; unused
rows `b`, `c`. Row `a` is in use, row `b` is not, and `c` contributes no
output row. -/
theorem combineSettings_join_semantics_witness :
    (combineSettings
        [⟨"a", "da", "2023"⟩, ⟨"b", "db", "2024"⟩]
        [⟨"b", "", ""⟩, ⟨"c", "", ""⟩] []).map (fun r => r.name)
      = ["a", "b"] ∧
    ∀ r ∈ combineSettings
        [⟨"a", "da", "2023"⟩, ⟨"b", "db", "2024"⟩]
        [⟨"b", "", ""⟩, ⟨"c", "", ""⟩] [],
      r.inUse = ((["a", "b"] : List String).contains r.name
        && !((["b", "c"] : List String).contains r.name)) := by
  have h := combineSettings_join_semantics
    [⟨"a", "da", "2023"⟩, ⟨"b", "db", "2024"⟩]
    [⟨"b", "", ""⟩, ⟨"c", "", ""⟩] []
  exact ⟨h.1, h.2⟩

/-- **C4.** If either the all-settings query outcome or the unused-settings
query outcome is a failure, `getAllModelSettings` propagates a failure
(produces no rows), and the `/api/model-settings/all` endpoint responds
with status 500, `success = false`, an empty `data` array and `count = 0`
— no row is fabricated. -/
theorem getAllModelSettings_propagates_failure
    (allRes unusedRes : Except String (List ModelSettingBasic))
    (tm : List (String × String))
    (h : (∃ e, allRes = .error e) ∨ (∃ e, unusedRes = .error e)) :
    ∃ e, getAllModelSettings allRes unusedRes tm = .error e ∧
      modelSettingsAllEndpoint (getAllModelSettings allRes unusedRes tm) =
        (500, { success := false, data := [], count := 0, error := some e }) := by
  cases allRes with
  | error e => cases unusedRes <;> exact ⟨e, rfl, rfl⟩
  | ok a =>
    cases unusedRes with
    | error e => exact ⟨e, rfl, rfl⟩
    | ok u =>
      rcases h with ⟨e, he⟩ | ⟨e, he⟩ <;> exact absurd he (by simp)

/-- Witness for C4: a concrete failing all-settings query. -/
theorem getAllModelSettings_propagates_failure_witness :
    ∃ e, getAllModelSettings (.error "Snowflake query timed out") (.ok []) []
        = .error e ∧
      modelSettingsAllEndpoint
          (getAllModelSettings (.error "Snowflake query timed out") (.ok []) []) =
        (500, { success := false, data := [], count := 0, error := some e }) :=
  getAllModelSettings_propagates_failure (.error "Snowflake query timed out")
    (.ok []) [] (Or.inl ⟨"Snowflake query timed out", rfl⟩)

/-- **C6.** If reading or parsing the team-mapping snapshot fails at startup,
`loadTeamMapping` returns `false` instead of throwing, the in-memory mapping
stays empty, and consequently every joined row built from that mapping gets
team `"Unknown"`. -/
theorem loadTeamMapping_failure_all_unknown (e : String)
    (A U : List ModelSettingBasic) :
    loadTeamMapping (.error e) [] = (false, []) ∧
    ∀ r ∈ combineSettings A U (loadTeamMapping (.error e) []).2,
      r.team = "Unknown" := by
  refine ⟨rfl, ?_⟩
  intro r hr
  simp only [loadTeamMapping, combineSettings, List.mem_map] at hr
  obtain ⟨s, hs, rfl⟩ := hr
  simp [lookupAssoc, jsOr]

/-- Witness for C6 at a concrete failing read and a concrete row set. -/
theorem loadTeamMapping_failure_all_unknown_witness :
    loadTeamMapping (.error "ENOENT") [] = (false, []) ∧
    ∀ r ∈ combineSettings [⟨"a", "d", "2023"⟩] []
        (loadTeamMapping (.error "ENOENT") []).2,
      r.team = "Unknown" :=
  loadTeamMapping_failure_all_unknown "ENOENT" [⟨"a", "d", "2023"⟩] []

/-- **C7 counterexample.** The claim says a row keyed in any casing yields
the same normalized record as the uppercase-keyed row; but the code reads
the literal uppercase keys, so a lowercase-keyed row normalizes to empty
fields instead. -/
theorem normalizeSnowflakeRow_not_case_insensitive :
    normalizeSnowflakeRow [("name", "x")] ≠ normalizeSnowflakeRow [("NAME", "x")] ∧
    normalizeSnowflakeRow [("name", "x")] = ⟨"", "", ""⟩ := by
  constructor
  · decide
  · decide

/-- **C7 amended.** The query boundary normalizes each JSON row by reading
exactly the uppercase keys `NAME`, `DESCRIPTION`, `CREATED_DATE`, with a
missing key defaulting to the empty string; a row carrying none of those
exact keys (e.g. any other casing) normalizes to all-empty fields. -/
theorem normalizeSnowflakeRow_uppercase_keys :
    (∀ n d c, normalizeSnowflakeRow [("NAME", n), ("DESCRIPTION", d), ("CREATED_DATE", c)]
      = ⟨n, d, c⟩) ∧
    (∀ row : List (String × String),
      (∀ e ∈ row, e.1 ≠ "NAME" ∧ e.1 ≠ "DESCRIPTION" ∧ e.1 ≠ "CREATED_DATE") →
      normalizeSnowflakeRow row = ⟨"", "", ""⟩) := by
  constructor
  · intro n d c
    simp [normalizeSnowflakeRow, lookupAssoc, jsOr_empty, List.find?]
  · intro row hrow
    have hfindN : row.find? (fun e => e.1 = "NAME") = none := by
      apply List.find?_eq_none.mpr
      intro e he
      simpa using (hrow e he).1
    have hfindD : row.find? (fun e => e.1 = "DESCRIPTION") = none := by
      apply List.find?_eq_none.mpr
      intro e he
      simpa using (hrow e he).2.1
    have hfindC : row.find? (fun e => e.1 = "CREATED_DATE") = none := by
      apply List.find?_eq_none.mpr
      intro e he
      simpa using (hrow e he).2.2
    simp [normalizeSnowflakeRow, lookupAssoc, jsOr_empty, hfindN, hfindD, hfindC]

/-- Witness for C7 amended: a concrete lowercase-keyed row. -/
theorem normalizeSnowflakeRow_uppercase_keys_witness :
    normalizeSnowflakeRow [("NAME", "s"), ("DESCRIPTION", "d"), ("CREATED_DATE", "c")]
      = ⟨"s", "d", "c"⟩ ∧
    normalizeSnowflakeRow [("Name", "s")] = ⟨"", "", ""⟩ := by
  refine ⟨normalizeSnowflakeRow_uppercase_keys.1 "s" "d" "c", ?_⟩
  exact normalizeSnowflakeRow_uppercase_keys.2 [("Name", "s")] (by decide)

theorem find?_update {α : Type} (s : List (String × α)) (k : String) (v : α)
    (h : s.any (fun e => e.1 = k) = true) :
    (s.map (fun e => if e.1 = k then (k, v) else e)).find? (fun e => e.1 = k)
      = some (k, v) := by
  induction s with
  | nil => simp at h
  | cons e t ih =>
    by_cases he : e.1 = k
    · simp [he]
    · simp only [List.map_cons, if_neg he]
      rw [List.find?_cons_of_neg _ (by simp [he])]
      apply ih
      simp only [List.any_cons, Bool.or_eq_true, decide_eq_true_eq] at h
      rcases h with h | h
      · exact absurd h he
      · simpa using h

theorem find?_update_ne {α : Type} (s : List (String × α)) (k' k : String) (v : α)
    (h : k' ≠ k) :
    (s.map (fun e => if e.1 = k' then (k', v) else e)).find? (fun e => e.1 = k)
      = s.find? (fun e => e.1 = k) := by
  induction s with
  | nil => rfl
  | cons e t ih =>
    by_cases he : e.1 = k'
    · have hek : ¬(e.1 = k) := by rw [he]; exact h
      simp only [List.map_cons, if_pos he]
      rw [List.find?_cons_of_neg _ (by simpa using h),
        List.find?_cons_of_neg _ (by simpa using hek)]
      exact ih
    · simp only [List.map_cons, if_neg he]
      by_cases hek : e.1 = k
      · rw [List.find?_cons_of_pos _ (by simpa using hek),
          List.find?_cons_of_pos _ (by simpa using hek)]
      · rw [List.find?_cons_of_neg _ (by simpa using hek),
          List.find?_cons_of_neg _ (by simpa using hek)]
        exact ih

theorem find?_mapSet_self {α : Type} (s : List (String × α)) (k : String) (v : α) :
    (mapSet s k v).find? (fun e => e.1 = k) = some (k, v) := by
  unfold mapSet
  split
  next h => exact find?_update s k v h
  next h =>
    have hs : s.find? (fun e => e.1 = k) = none := by
      apply List.find?_eq_none.mpr
      intro x hx hpx
      exact h (List.any_eq_true.mpr ⟨x, hx, hpx⟩)
    simp [hs]

theorem find?_mapSet_ne {α : Type} (s : List (String × α)) (k' k : String) (v : α)
    (h : k' ≠ k) :
    (mapSet s k' v).find? (fun e => e.1 = k) = s.find? (fun e => e.1 = k) := by
  unfold mapSet
  split
  next => exact find?_update_ne s k' k v h
  next => simp [List.find?_append, h]

theorem find?_mapDelete_ne {α : Type} (s : List (String × α)) (k' k : String)
    (h : k' ≠ k) :
    (mapDelete s k').find? (fun e => e.1 = k) = s.find? (fun e => e.1 = k) := by
  unfold mapDelete
  rw [List.find?_filter]
  congr 1
  funext e
  by_cases hek : e.1 = k
  · have hek' : ¬(e.1 = k') := by rw [hek]; exact fun hh => h hh.symm
    simp [hek, hek', Ne.symm h]
  · simp [hek]

theorem find?_applyCacheOp_untouched {α : Type} (s : CacheState α) (op : CacheOp α)
    (k : String) (h : touches op k = false) :
    (applyCacheOp s op).find? (fun e => e.1 = k) = s.find? (fun e => e.1 = k) := by
  cases op with
  | setOp k' v t =>
    have hk : k' ≠ k := by simpa [touches] using h
    exact find?_mapSet_ne s k' k (v, t) hk
  | getOp k' t =>
    have hk : k' ≠ k := by simpa [touches] using h
    show ((cacheGet s k' t).2).find? (fun e => e.1 = k) = _
    unfold cacheGet
    cases hf : s.find? (fun e => e.1 = k') with
    | none => rfl
    | some e =>
      by_cases ht : t - e.2.2 > cacheTTL
      · simp only [if_pos ht]
        exact find?_mapDelete_ne s k' k hk
      · simp only [if_neg ht]
  | clearOp k' =>
    have hk : k' ≠ k := by simpa [touches] using h
    exact find?_mapDelete_ne s k' k hk
  | clearAllOp => simp [touches] at h

theorem find?_foldl_untouched {α : Type} (ops : List (CacheOp α)) (s : CacheState α)
    (k : String) (h : ∀ op ∈ ops, touches op k = false) :
    (ops.foldl applyCacheOp s).find? (fun e => e.1 = k)
      = s.find? (fun e => e.1 = k) := by
  induction ops generalizing s with
  | nil => rfl
  | cons op t ih =>
    rw [List.foldl_cons, ih _ (fun o ho => h o (List.mem_cons_of_mem _ ho))]
    exact find?_applyCacheOp_untouched s op k (h op (List.mem_cons_self _ _))

/-- **C9.** If `cacheService.set(k, v)` happens at time `t0 ≤ t1` and no later
operation touches `k`, then `get(k)` at `t1` returns the stored value when
`t1 - t0` is at most the 5-minute TTL, and returns `null` — deleting the
entry — when `t1 - t0` exceeds the TTL. -/
theorem cache_set_get_ttl {α : Type} (s : CacheState α) (k : String) (v : α)
    (t0 t1 : Nat) (ops : List (CacheOp α))
    (hops : ∀ op ∈ ops, touches op k = false) (_h01 : t0 ≤ t1) :
    (t1 - t0 ≤ cacheTTL →
      cacheGet (ops.foldl applyCacheOp (cacheSet s k v t0)) k t1
        = (some v, ops.foldl applyCacheOp (cacheSet s k v t0))) ∧
    (cacheTTL < t1 - t0 →
      cacheGet (ops.foldl applyCacheOp (cacheSet s k v t0)) k t1
        = (none, mapDelete (ops.foldl applyCacheOp (cacheSet s k v t0)) k)) := by
  have hfind : (ops.foldl applyCacheOp (cacheSet s k v t0)).find? (fun e => e.1 = k)
      = some (k, v, t0) := by
    rw [find?_foldl_untouched ops _ k hops]
    exact find?_mapSet_self s k (v, t0)
  constructor
  · intro hle
    unfold cacheGet
    rw [hfind]
    simp [Nat.not_lt.mpr hle]
  · intro hlt
    unfold cacheGet
    rw [hfind]
    simp [hlt]

/-- Witness for C9: a fresh cache, key set at time 0, read back at exactly
the TTL (hit) and one millisecond past it (expired and deleted). -/
theorem cache_set_get_ttl_witness :
    (cacheGet (([] : List (CacheOp Nat)).foldl applyCacheOp
        (cacheSet [] "model_settings" 42 0)) "model_settings" 300000
      = (some 42, ([] : List (CacheOp Nat)).foldl applyCacheOp
        (cacheSet [] "model_settings" 42 0))) ∧
    (cacheGet (([] : List (CacheOp Nat)).foldl applyCacheOp
        (cacheSet [] "model_settings" 42 0)) "model_settings" 300001
      = (none, mapDelete (([] : List (CacheOp Nat)).foldl applyCacheOp
        (cacheSet [] "model_settings" 42 0)) "model_settings")) := by
  constructor
  · exact (cache_set_get_ttl [] "model_settings" 42 0 300000 []
      (by simp) (by decide)).1 (by decide)
  · exact (cache_set_get_ttl [] "model_settings" 42 0 300001 []
      (by simp) (by decide)).2 (by decide)

/-- **C5.** If the spawned CLI process has not closed (or errored) within the
fixed 60-second timeout, the in-flight child is killed and the promise
rejects with the timeout failure; and in every case the caller receives
either a result or a failure. -/
theorem snowflake_query_timeout
    (jp : String → Except String (List (List (String × String))))
    (fe : Option (Nat × ProcEvent)) :
    ((fe = none ∨ ∃ t e, fe = some (t, e) ∧ snowflakeTimeoutMs ≤ t) →
      executeSnowflakeQueryModel jp fe
        = { killed := true, result := .error "Snowflake query timed out" }) ∧
    ((∃ rows, (executeSnowflakeQueryModel jp fe).result = .ok rows) ∨
      (∃ msg, (executeSnowflakeQueryModel jp fe).result = .error msg)) := by
  constructor
  · rintro (rfl | ⟨t, e, rfl, ht⟩)
    · rfl
    · simp [executeSnowflakeQueryModel, Nat.not_lt.mpr ht]
  · cases hr : (executeSnowflakeQueryModel jp fe).result with
    | ok rows => exact Or.inl ⟨rows, rfl⟩
    | error msg => exact Or.inr ⟨msg, rfl⟩

/-- Witness for C5: a process that never closes; the query rejects with
the timeout failure and the child is killed. -/
theorem snowflake_query_timeout_witness :
    executeSnowflakeQueryModel (fun _ => .ok []) none
      = { killed := true, result := .error "Snowflake query timed out" } :=
  (snowflake_query_timeout (fun _ => .ok []) none).1 (Or.inl rfl)

/-- **C8 counterexample.** Not every endpoint answers with the uniform
envelope `{success, data, count, error?}`: the health check returns
`{status, timestamp}` and the ownership-refresh success response returns
`{success, message, settingsCount, summary}`. -/
theorem endpoints_not_uniform_envelope :
    isUniformEnvelope (healthResponse "2025-01-01T00:00:00.000Z") = false ∧
    isUniformEnvelope (teamMappingRefreshResponse true 0) = false := by
  constructor
  · decide
  · decide

/-- **C8 amended.** The fetch-all-settings and refresh-warehouse-data
endpoints respond, on success and on failure, with the uniform envelope
`{success, data, count, error?}`; the ownership-refresh, per-setting
detail and health endpoints use other shapes. -/
theorem model_settings_endpoints_uniform_envelope
    (r : Except String (List ModelSetting)) :
    isUniformEnvelope (modelSettingsAllResponse r) = true ∧
    isUniformEnvelope (modelSettingsRefreshResponse r) = true := by
  cases r <;> exact ⟨rfl, rfl⟩

/-- Witness for C8 amended at concrete outcomes. -/
theorem model_settings_endpoints_uniform_envelope_witness :
    isUniformEnvelope (modelSettingsAllResponse (.error "boom")) = true ∧
    isUniformEnvelope (modelSettingsRefreshResponse (.error "boom")) = true :=
  model_settings_endpoints_uniform_envelope (.error "boom")

/-- **C3.** The Ownership Resolver assigns the owning team by a fixed
precedence cascade stopping at the first match: (i) exact match of the
relative path against a `PathOwnershipIndex` key; (ii) otherwise the first
pattern in index (manifest-insertion) order that is a directory-prefix of
the relative path — a linear first-match scan, not longest-prefix; (iii)
otherwise the lookup of the path's parent directory in the
`DirectoryOwnershipIndex`; (iv) otherwise the sentinel team `"Unknown"`. -/
theorem ownership_cascade (teams : List TeamEntry) (p : String) :
    (∀ t, lookupAssoc (buildPathToTeam teams) p = some t →
      resolveOwner teams p = t) ∧
    (lookupAssoc (buildPathToTeam teams) p = none →
      (∀ pat t, (buildPathToTeam teams).find?
          (fun e => isDirPrefixMatch e.1 p) = some (pat, t) →
        resolveOwner teams p = t) ∧
      ((buildPathToTeam teams).find?
          (fun e => isDirPrefixMatch e.1 p) = none →
        (∀ t, lookupAssoc (buildDirectoryToTeam (buildPathToTeam teams))
            (jsDirname p) = some t →
          resolveOwner teams p = t) ∧
        (lookupAssoc (buildDirectoryToTeam (buildPathToTeam teams))
            (jsDirname p) = none →
          resolveOwner teams p = "Unknown"))) := by
  constructor
  · intro t ht
    unfold resolveOwner resolveTeam
    rw [ht]
  · intro h1
    constructor
    · intro pat t ht
      unfold resolveOwner resolveTeam
      rw [h1, ht]
    · intro h2
      constructor
      · intro t ht
        unfold resolveOwner resolveTeam
        rw [h1, h2, ht]
      · intro h3
        unfold resolveOwner resolveTeam
        rw [h1, h2, h3]

/-- Witness for C3, the spec's end-to-end example: team `Payments` owns
`api/payments/model_settings/`; the file
`api/payments/model_settings/foo_flag.py` resolves to `Payments` through
the directory-prefix branch of the cascade. -/
theorem ownership_cascade_witness :
    resolveOwner [⟨"Payments", [⟨[⟨"api/payments/model_settings/"⟩]⟩]⟩]
      "api/payments/model_settings/foo_flag.py" = "Payments" := by
  have h := ownership_cascade [⟨"Payments", [⟨[⟨"api/payments/model_settings/"⟩]⟩]⟩]
    "api/payments/model_settings/foo_flag.py"
  exact (h.2 (by decide)).1 "api/payments/model_settings/" "Payments" (by decide)

theorem dedup_length_eq_one_iff {γ : Type} [DecidableEq γ] (l : List γ) :
    l.dedup.length = 1 ↔ ∃ a, a ∈ l ∧ ∀ x ∈ l, x = a := by
  constructor
  · intro h
    have hc : l.toFinset.card = 1 := by rw [List.card_toFinset]; exact h
    obtain ⟨a, ha⟩ := Finset.card_eq_one.mp hc
    refine ⟨a, ?_, ?_⟩
    · have ha' : a ∈ l.toFinset := by rw [ha]; exact Finset.mem_singleton_self a
      exact List.mem_toFinset.mp ha'
    · intro x hx
      have hx' : x ∈ l.toFinset := List.mem_toFinset.mpr hx
      rw [ha] at hx'
      exact Finset.mem_singleton.mp hx'
  · rintro ⟨a, ha, hall⟩
    rw [← List.card_toFinset]
    apply Finset.card_eq_one.mpr
    refine ⟨a, ?_⟩
    ext x
    simp only [List.mem_toFinset, Finset.mem_singleton]
    exact ⟨fun hx => hall x hx, fun hx => hx ▸ ha⟩

theorem countP_eq_countP_iff {β : Type} (l : List β) (p q : β → Bool)
    (h : ∀ x ∈ l, p x = true → q x = true) :
    (l.countP p = l.countP q) ↔ ∀ x ∈ l, q x = true → p x = true := by
  induction l with
  | nil => simp
  | cons a t ih =>
    have ht : ∀ x ∈ t, p x = true → q x = true :=
      fun x hx => h x (List.mem_cons_of_mem _ hx)
    have hmono : t.countP p ≤ t.countP q := List.countP_mono_left ht
    rw [List.countP_cons, List.countP_cons]
    by_cases hp : p a = true
    · have hq := h a (List.mem_cons_self _ _) hp
      rw [if_pos hp, if_pos hq]
      constructor
      · intro heq x hx hqx
        rcases List.mem_cons.mp hx with rfl | hx'
        · exact hp
        · exact (ih ht).mp (by omega) x hx' hqx
      · intro hall
        have heq := (ih ht).mpr (fun x hx hqx => hall x (List.mem_cons_of_mem _ hx) hqx)
        omega
    · by_cases hq : q a = true
      · rw [if_neg hp, if_pos hq]
        constructor
        · intro heq
          exact absurd heq (by omega)
        · intro hall
          exact absurd (hall a (List.mem_cons_self _ _) hq) hp
      · rw [if_neg hp, if_neg hq]
        constructor
        · intro heq x hx hqx
          rcases List.mem_cons.mp hx with rfl | hx'
          · exact absurd hqx hq
          · exact (ih ht).mp (by omega) x hx' hqx
        · intro hall
          have heq := (ih ht).mpr
            (fun x hx hqx => hall x (List.mem_cons_of_mem _ hx) hqx)
          omega

theorem fst_of_mem_leftJoinRow {msvs : List MsvRow} {ms : MsRow}
    {r : MsRow × Option MsvRow} (h : r ∈ leftJoinRow msvs ms) : r.1 = ms := by
  unfold leftJoinRow at h
  split at h
  · rw [List.mem_singleton] at h
    rw [h]
  · obtain ⟨v, hv, rfl⟩ := List.mem_map.mp h
    rfl

theorem mem_fst_leftJoin {mss : List MsRow} {msvs : List MsvRow}
    {r : MsRow × Option MsvRow} (h : r ∈ leftJoin mss msvs) : r.1 ∈ mss := by
  obtain ⟨ms, hms, hr⟩ := List.mem_flatMap.mp h
  rw [fst_of_mem_leftJoinRow hr]
  exact hms

theorem exists_mem_leftJoin {mss : List MsRow} {msvs : List MsvRow} {ms : MsRow}
    (h : ms ∈ mss) : ∃ o, (ms, o) ∈ leftJoin mss msvs := by
  cases hf : msvs.filter (fun v => msvMatches ms v) with
  | nil =>
    refine ⟨none, List.mem_flatMap.mpr ⟨ms, h, ?_⟩⟩
    unfold leftJoinRow
    rw [if_pos hf]
    exact List.mem_singleton.mpr rfl
  | cons v t =>
    refine ⟨some v, List.mem_flatMap.mpr ⟨ms, h, ?_⟩⟩
    unfold leftJoinRow
    rw [if_neg (by simp [hf]), hf]
    exact List.mem_map.mpr ⟨v, List.mem_cons_self _ _, rfl⟩

theorem mem_leftJoin_some {mss : List MsRow} {msvs : List MsvRow} {ms : MsRow}
    {v : MsvRow} :
    (ms, some v) ∈ leftJoin mss msvs
      ↔ ms ∈ mss ∧ v ∈ msvs ∧ msvMatches ms v = true := by
  constructor
  · intro h
    obtain ⟨ms', hms', hr⟩ := List.mem_flatMap.mp h
    have hfst : ms = ms' := by
      have h1 := fst_of_mem_leftJoinRow hr
      simpa using h1
    subst hfst
    unfold leftJoinRow at hr
    split at hr
    · rw [List.mem_singleton] at hr
      simp at hr
    · obtain ⟨v', hv', heq⟩ := List.mem_map.mp hr
      have hv2 : v' = v := by
        have h2 := congrArg Prod.snd heq
        simpa using h2
      subst hv2
      have h3 := List.mem_filter.mp hv'
      exact ⟨hms', h3.1, h3.2⟩
  · rintro ⟨h1, h2, h3⟩
    apply List.mem_flatMap.mpr
    refine ⟨ms, h1, ?_⟩
    unfold leftJoinRow
    have hv : v ∈ msvs.filter (fun v => msvMatches ms v) := List.mem_filter.mpr ⟨h2, h3⟩
    have hne : ¬(msvs.filter (fun v => msvMatches ms v) = []) := by
      intro hc
      rw [hc] at hv
      simp at hv
    rw [if_neg hne]
    exact List.mem_map.mpr ⟨v, hv, rfl⟩

theorem leftJoin_filter_fst (mss : List MsRow) (msvs : List MsvRow) (q : MsRow → Bool) :
    (leftJoin mss msvs).filter (fun r => q r.1) = leftJoin (mss.filter q) msvs := by
  induction mss with
  | nil => rfl
  | cons ms t ih =>
    have hblock : (leftJoinRow msvs ms).filter (fun r => q r.1)
        = if q ms then leftJoinRow msvs ms else [] := by
      by_cases hq : q ms = true
      · rw [if_pos hq]
        apply List.filter_eq_self.mpr
        intro r hr
        rw [fst_of_mem_leftJoinRow hr]
        exact hq
      · rw [if_neg hq]
        apply List.filter_eq_nil_iff.mpr
        intro r hr
        rw [fst_of_mem_leftJoinRow hr]
        exact hq
    have hL : leftJoin (ms :: t) msvs = leftJoinRow msvs ms ++ leftJoin t msvs := by
      simp [leftJoin]
    rw [hL, List.filter_append, hblock, ih, List.filter_cons]
    by_cases hq : q ms = true
    · rw [if_pos hq, if_pos hq]
      simp [leftJoin]
    · rw [if_neg hq, if_neg hq, List.nil_append]

theorem mem_map_fst_leftJoin {γ : Type} (S : List MsRow) (msvs : List MsvRow)
    (f : MsRow → γ) (x : γ) :
    x ∈ (leftJoin S msvs).map (fun r => f r.1) ↔ x ∈ S.map f := by
  simp only [List.mem_map]
  constructor
  · rintro ⟨r, hr, rfl⟩
    exact ⟨r.1, mem_fst_leftJoin hr, rfl⟩
  · rintro ⟨ms, hms, rfl⟩
    obtain ⟨o, ho⟩ := @exists_mem_leftJoin S msvs ms hms
    exact ⟨(ms, o), ho, rfl⟩

theorem leftJoin_dedup_values (S : List MsRow) (msvs : List MsvRow) :
    (((leftJoin S msvs).map (fun r => r.1.value)).dedup.length = 1)
      ↔ ((S.map (fun r => r.value)).dedup.length = 1) := by
  rw [dedup_length_eq_one_iff, dedup_length_eq_one_iff]
  constructor
  · rintro ⟨a, ha, hall⟩
    exact ⟨a, (mem_map_fst_leftJoin S msvs _ a).mp ha,
      fun x hx => hall x ((mem_map_fst_leftJoin S msvs _ x).mpr hx)⟩
  · rintro ⟨a, ha, hall⟩
    exact ⟨a, (mem_map_fst_leftJoin S msvs _ a).mpr ha,
      fun x hx => hall x ((mem_map_fst_leftJoin S msvs _ x).mp hx)⟩

theorem leftJoin_override_values (S : List MsRow) (msvs : List MsvRow) :
    ((leftJoin S msvs).countP (fun r =>
        match r.2 with
        | some v => v.value = r.1.value
        | none => false)
      = (leftJoin S msvs).countP (fun r => r.2.isSome))
    ↔ (∀ ms ∈ S, ∀ v ∈ msvs, msvMatches ms v = true → v.value = ms.value) := by
  rw [countP_eq_countP_iff]
  · constructor
    · intro h ms hms v hv hm
      have hmem := mem_leftJoin_some.mpr ⟨hms, hv, hm⟩
      have h1 := h (ms, some v) hmem rfl
      simpa using h1
    · rintro h ⟨ms, o⟩ hr hs
      cases o with
      | none => simp at hs
      | some v =>
        obtain ⟨h1, h2, h3⟩ := mem_leftJoin_some.mp hr
        simpa using h ms h1 v h2 h3
  · rintro ⟨ms, o⟩ _ hp
    cases o with
    | none => simp at hp
    | some v => rfl

theorem leftJoin_override_percents (S : List MsRow) (msvs : List MsvRow) :
    ((leftJoin S msvs).countP (fun r =>
        match r.2 with
        | some v => decide (v.percent ≠ 100)
        | none => false) = 0)
    ↔ (∀ ms ∈ S, ∀ v ∈ msvs, msvMatches ms v = true → v.percent = 100) := by
  rw [List.countP_eq_zero]
  constructor
  · intro h ms hms v hv hm
    have h1 := h _ (mem_leftJoin_some.mpr ⟨hms, hv, hm⟩)
    simpa using h1
  · rintro h ⟨ms, o⟩ hr
    cases o with
    | none => simp
    | some v =>
      obtain ⟨h1, h2, h3⟩ := mem_leftJoin_some.mp hr
      simpa using h ms h1 v h2 h3

/-- **C2 counterexample.** The WHERE clause drops the conditional-schema
rows *before* grouping, so a name can be classified unused even though a
conditional schema is attached to it on one pod and its base values differ
across pods: with setting rows `(pod a, value 1, schema attached)` and
`(pod b, value 2, no schema)` and no overrides, the query returns the name
while the claim's rule rejects it. -/
theorem unused_query_claim_counterexample :
    "s" ∈ unusedModelSettingsQuery
        [⟨1, "s", "a", "1", some "sch"⟩, ⟨2, "s", "b", "2", none⟩] [] ∧
    claimUnused [⟨1, "s", "a", "1", some "sch"⟩, ⟨2, "s", "b", "2", none⟩] [] "s"
      = false := by
  constructor
  · decide
  · decide

/-- **C2 amended.** The unused-settings query classifies a name as unused
exactly when, restricting to the name's setting rows **without** a
conditional activation schema (at least one such row existing): exactly one
distinct base value occurs among those rows, every partition-level override
attached to such a row equals that row's base value, and no such override
has an activation percentage different from 100. -/
theorem unused_query_characterization (mss : List MsRow) (msvs : List MsvRow)
    (n : String) :
    n ∈ unusedModelSettingsQuery mss msvs ↔ claimUnusedAmended mss msvs n = true := by
  have hWp : wherePhase mss msvs
      = leftJoin (mss.filter (fun r => r.conditional_schema = none)) msvs := by
    unfold wherePhase
    exact leftJoin_filter_fst mss msvs (fun x => decide (x.conditional_schema = none))
  have hG : groupRows mss msvs n
      = leftJoin (mss.filter (fun r => r.name = n && r.conditional_schema = none))
          msvs := by
    unfold groupRows
    rw [hWp,
      leftJoin_filter_fst (mss.filter (fun r => decide (r.conditional_schema = none)))
        msvs (fun x => decide (x.name = n)),
      List.filter_filter]
  have hkey : (n ∈ ((wherePhase mss msvs).map (fun r => r.1.name)).dedup)
      ↔ ∃ ms, ms ∈ mss.filter
          (fun r => r.name = n && r.conditional_schema = none) := by
    rw [List.mem_dedup, hWp, mem_map_fst_leftJoin]
    constructor
    · intro hx
      obtain ⟨ms, hms, hname⟩ := List.mem_map.mp hx
      have hmf := List.mem_filter.mp hms
      refine ⟨ms, List.mem_filter.mpr ⟨hmf.1, ?_⟩⟩
      simp only [Bool.and_eq_true, decide_eq_true_eq]
      exact ⟨hname, by simpa using hmf.2⟩
    · rintro ⟨ms, hms⟩
      have hmf := List.mem_filter.mp hms
      have hcond := hmf.2
      simp only [Bool.and_eq_true, decide_eq_true_eq] at hcond
      apply List.mem_map.mpr
      exact ⟨ms, List.mem_filter.mpr ⟨hmf.1, by simpa using hcond.2⟩, hcond.1⟩
  unfold unusedModelSettingsQuery claimUnusedAmended
  rw [List.mem_filter]
  unfold havingPred
  rw [hG, hkey]
  simp only [Bool.and_eq_true, decide_eq_true_eq]
  rw [leftJoin_dedup_values, leftJoin_override_values, leftJoin_override_percents]
  simp only [List.all_eq_true, List.mem_filter, Bool.and_eq_true, decide_eq_true_eq]
  constructor
  · rintro ⟨hK, ⟨hD, hV⟩, hP⟩
    refine ⟨hD, ?_⟩
    rintro ms hms v ⟨hv, hm⟩
    exact ⟨hV ms hms v hv hm, hP ms hms v hv hm⟩
  · rintro ⟨hD, hA⟩
    have hK : ∃ ms ∈ mss, ms.name = n ∧ ms.conditional_schema = none := by
      obtain ⟨a, ha, _⟩ := (dedup_length_eq_one_iff _).mp hD
      obtain ⟨ms, hms, _⟩ := List.mem_map.mp ha
      have h2 := List.mem_filter.mp hms
      have h3 := h2.2
      simp only [Bool.and_eq_true, decide_eq_true_eq] at h3
      exact ⟨ms, h2.1, h3.1, h3.2⟩
    refine ⟨hK, ⟨hD, ?_⟩, ?_⟩
    · intro ms hms v hv hm
      exact (hA ms hms v ⟨hv, hm⟩).1
    · intro ms hms v hv hm
      exact (hA ms hms v ⟨hv, hm⟩).2

theorem parseLoop_cons_eq (c : Char) (r : List Char) (res : List (List Char))
    (cur : List Char) (b : Bool) :
    parseLoop (c :: r) res cur b
      = if c = '"' then
          (if b then
            (match r with
             | c2 :: rest2 =>
               if c2 = '"' then parseLoop rest2 res (cur ++ ['"']) true
               else parseLoop (c2 :: rest2) res cur false
             | [] => res ++ [trimChars cur])
          else parseLoop r res cur true)
        else if c = ',' ∧ b = false then parseLoop r (res ++ [trimChars cur]) [] b
        else parseLoop r res (cur ++ [c]) b := by
  rw [parseLoop.eq_def]

theorem parseLoop_nil (res : List (List Char)) (cur : List Char) (b : Bool) :
    parseLoop [] res cur b = res ++ [trimChars cur] := by
  rw [parseLoop.eq_def]

theorem parseLoop_open (r : List Char) (res : List (List Char)) (cur : List Char) :
    parseLoop ('"' :: r) res cur false = parseLoop r res cur true := by
  rw [parseLoop.eq_def]
  rfl

theorem parseLoop_close_nil (res : List (List Char)) (cur : List Char) :
    parseLoop ['"'] res cur true = res ++ [trimChars cur] := by
  rw [parseLoop.eq_def]
  rfl

theorem parseLoop_quote_step (c2 : Char) (r2 : List Char) (res : List (List Char))
    (cur : List Char) :
    parseLoop ('"' :: c2 :: r2) res cur true
      = if c2 = '"' then parseLoop r2 res (cur ++ ['"']) true
        else parseLoop (c2 :: r2) res cur false := by
  rw [parseLoop.eq_def]
  rfl

theorem parseLoop_comma (r : List Char) (res : List (List Char)) (cur : List Char) :
    parseLoop (',' :: r) res cur false
      = parseLoop r (res ++ [trimChars cur]) [] false := by
  rw [parseLoop.eq_def]
  rfl

theorem parseLoop_other (c : Char) (r : List Char) (res : List (List Char))
    (cur : List Char) (b : Bool) (hq : ¬ c = '"') (hc : ¬(c = ',' ∧ b = false)) :
    parseLoop (c :: r) res cur b = parseLoop r res (cur ++ [c]) b := by
  rw [parseLoop_cons_eq, if_neg hq, if_neg hc]

theorem parseLoop_run_unquoted (f : List Char) :
    ∀ (rest : List Char) (res : List (List Char)) (cur : List Char),
      ¬ ',' ∈ f → ¬ '"' ∈ f →
      parseLoop (f ++ rest) res cur false = parseLoop rest res (cur ++ f) false := by
  induction f with
  | nil =>
    intro rest res cur _ _
    simp
  | cons c t ih =>
    intro rest res cur hnc hnq
    have hq : ¬ c = '"' := fun h => hnq (h ▸ List.mem_cons_self _ _)
    have hcm : ¬(c = ',' ∧ (false : Bool) = false) :=
      fun h => hnc (h.1 ▸ List.mem_cons_self _ _)
    rw [List.cons_append, parseLoop_other c (t ++ rest) res cur false hq hcm,
      ih rest res (cur ++ [c]) (fun h => hnc (List.mem_cons_of_mem _ h))
        (fun h => hnq (List.mem_cons_of_mem _ h))]
    simp

theorem parseLoop_run_quoted (f : List Char) :
    ∀ (rest : List Char) (res : List (List Char)) (cur : List Char),
      (rest = [] ∨ ∃ c2 r2, rest = c2 :: r2 ∧ ¬ c2 = '"') →
      parseLoop (doubleQuotes f ++ ('"' :: rest)) res cur true
        = parseLoop rest res (cur ++ f) false := by
  induction f with
  | nil =>
    intro rest res cur hrest
    show parseLoop ('"' :: rest) res cur true = parseLoop rest res (cur ++ []) false
    rcases hrest with rfl | ⟨c2, r2, rfl, hc2⟩
    · rw [parseLoop_close_nil, List.append_nil, parseLoop_nil]
    · rw [parseLoop_quote_step, if_neg hc2, List.append_nil]
  | cons c t ih =>
    intro rest res cur hrest
    by_cases hc : c = '"'
    · subst hc
      have hd : doubleQuotes ('"' :: t) = '"' :: '"' :: doubleQuotes t := by
        simp [doubleQuotes]
      rw [hd]
      simp only [List.cons_append]
      rw [parseLoop_quote_step, if_pos rfl, ih _ _ _ hrest]
      simp
    · have hd : doubleQuotes (c :: t) = c :: doubleQuotes t := by
        simp [doubleQuotes, hc]
      rw [hd]
      simp only [List.cons_append]
      rw [parseLoop_other c _ res cur true hc (by simp), ih _ _ _ hrest]
      simp

theorem contains_eq_false_iff (l : List Char) (a : Char) :
    (l.contains a = false) ↔ ¬ a ∈ l := by
  simp [List.contains]

theorem parseLoop_escaped_field (f : List Char) (rest : List Char)
    (res : List (List Char))
    (hrest : rest = [] ∨ ∃ r2, rest = ',' :: r2) :
    parseLoop (escapeChars f ++ rest) res [] false = parseLoop rest res f false := by
  unfold escapeChars
  split
  · have hr : rest = [] ∨ ∃ c2 r2, rest = c2 :: r2 ∧ ¬ c2 = '"' := by
      rcases hrest with rfl | ⟨r2, rfl⟩
      · exact Or.inl rfl
      · exact Or.inr ⟨',', r2, rfl, by decide⟩
    have hsplit : ('"' :: (doubleQuotes f ++ ['"'])) ++ rest
        = '"' :: (doubleQuotes f ++ ('"' :: rest)) := by
      simp
    rw [hsplit, parseLoop_open, parseLoop_run_quoted f _ res [] hr, List.nil_append]
  · next h =>
    have hq' : needsQuoting f = false := by
      revert h
      cases needsQuoting f <;> simp
    have hparts := hq'
    simp only [needsQuoting, Bool.or_eq_false_iff] at hparts
    have hnc : ¬ ',' ∈ f := (contains_eq_false_iff f ',').mp hparts.1.1.1.1.1
    have hnq : ¬ '"' ∈ f := (contains_eq_false_iff f '"').mp hparts.1.1.1.1.2
    rw [parseLoop_run_unquoted f rest res [] hnc hnq, List.nil_append]

theorem parseLoop_join (fs : List (List Char)) :
    ∀ res, fs ≠ [] → (∀ f ∈ fs, trimChars f = f) →
      parseLoop (joinWithComma (fs.map escapeChars)) res [] false = res ++ fs := by
  induction fs with
  | nil =>
    intro res hne _
    exact absurd rfl hne
  | cons f t ih =>
    intro res _ hok
    cases t with
    | nil =>
      show parseLoop (joinWithComma [escapeChars f]) res [] false = res ++ [f]
      have hj : joinWithComma [escapeChars f] = escapeChars f ++ [] := by
        simp [joinWithComma]
      rw [hj, parseLoop_escaped_field f [] res (Or.inl rfl)]
      show res ++ [trimChars f] = res ++ [f]
      rw [hok f (List.mem_cons_self _ _)]
    | cons g t2 =>
      have hj : joinWithComma ((f :: g :: t2).map escapeChars)
          = escapeChars f ++ (',' :: joinWithComma ((g :: t2).map escapeChars)) := rfl
      rw [hj,
        parseLoop_escaped_field f (',' :: joinWithComma ((g :: t2).map escapeChars))
          res (Or.inr ⟨_, rfl⟩),
        parseLoop_comma, hok f (List.mem_cons_self _ _),
        ih (res ++ [f]) (by simp) (fun x hx => hok x (List.mem_cons_of_mem _ hx))]
      simp

/-- **C10 counterexample.** The claim quantifies over every list of fields
satisfying the hypotheses, but for the empty list the join is the empty
line and `parseCSVLine` of the empty line is `[""]`, one empty field — not
the original empty list. -/
theorem csv_roundtrip_counterexample :
    parseCSVLine (joinComma (([] : List String).map escapeCSVField)) = [""] ∧
    ([""] : List String) ≠ ([] : List String) := by
  constructor
  · rfl
  · decide

/-- **C10 amended.** For every **nonempty** list of fields in which no field
contains a newline or carriage return and no field has leading or trailing
whitespace (its trim is itself), parsing the comma-join of the escaped
fields returns exactly the original fields, including fields containing
commas and doubled-escaped quotes. -/
theorem csv_escape_parse_roundtrip (fs : List String) (hne : fs ≠ [])
    (hok : ∀ f ∈ fs, ¬ '\n' ∈ f.data ∧ ¬ '\r' ∈ f.data ∧ trimChars f.data = f.data) :
    parseCSVLine (joinComma (fs.map escapeCSVField)) = fs := by
  show (parseLoop (joinWithComma ((fs.map escapeCSVField).map (fun f => f.data)))
      [] [] false).map (fun l => (⟨l⟩ : String)) = fs
  have hmap : (fs.map escapeCSVField).map (fun f => f.data)
      = (fs.map (fun f => f.data)).map escapeChars := by
    rw [List.map_map, List.map_map]
    rfl
  rw [hmap,
    parseLoop_join (fs.map (fun f => f.data)) [] (by simpa using hne)
      (fun x hx => by
        obtain ⟨f, hf, rfl⟩ := List.mem_map.mp hx
        exact (hok f hf).2.2),
    List.nil_append, List.map_map]
  have hid : ((fun l => (⟨l⟩ : String)) ∘ fun f => f.data) = id := by
    funext s
    rfl
  rw [hid, List.map_id]

/-- Witness for C10 amended: fields with a comma and an inner quote
round-trip through escape, join and parse. -/
theorem csv_escape_parse_roundtrip_witness :
    parseCSVLine (joinComma (["a,b", "c\"d", "plain"].map escapeCSVField))
      = ["a,b", "c\"d", "plain"] :=
  csv_escape_parse_roundtrip ["a,b", "c\"d", "plain"] (by decide) (by decide)

end MSM
